import Mathlib

/-!
Verification of the stagix static-git-site generator (`src/lib.rs`) against its
natural-language specification.  The repository's own logic — log truncation,
metadata loading, README/LICENSE detection, relative-link computation, diffstat
aggregation, binary-content fallback, per-line anchors, and the rewrite-lookup
behaviour — is shallowly embedded below; the external VCS layer (gix) is
modelled per the spec's collaborator contract (spec section 6).
-/

/-! ## Basic utilities: characters, lines, UTF-8 -/

/-- Repetition of a string, modelling Rust `str::repeat` (used in
`to_root_path`, `src/lib.rs:895`). -/
def strRepeat (s : String) : Nat → String
  | 0 => ""
  | n + 1 => s ++ strRepeat s n

/-- Model of Rust `str::lines`, which is `split_inclusive('\n')` with the
terminating newline and an optional preceding carriage return stripped from
each newline-terminated piece: the final piece, when not newline-terminated,
is yielded unchanged (a bare trailing CR is kept), and a trailing newline
produces no final empty line.  `acc` holds the current piece reversed. -/
def rustLinesAux (acc : List Char) : List Char → List (List Char)
  | [] => if acc.isEmpty then [] else [acc.reverse]
  | c :: rest =>
    if c = '\n' then
      (match acc with
        | '\r' :: t => t.reverse
        | _ => acc.reverse) :: rustLinesAux [] rest
    else rustLinesAux (c :: acc) rest

def rustLines (s : List Char) : List (List Char) := rustLinesAux [] s

/-- Model of UTF-8 validation/decoding (Rust `String::from_utf8` /
`str::from_utf8`): returns `none` exactly on invalid byte sequences
(continuation errors, overlong encodings, surrogates, out-of-range leads). -/
def utf8Decode : List Nat → Option (List Char)
  | [] => some []
  | b :: rest =>
    if b < 0x80 then
      (utf8Decode rest).map (fun cs => Char.ofNat b :: cs)
    else if b < 0xC2 then none
    else if b < 0xE0 then
      match rest with
      | b2 :: rest2 =>
        if 0x80 ≤ b2 ∧ b2 ≤ 0xBF then
          (utf8Decode rest2).map (fun cs =>
            Char.ofNat ((b - 0xC0) * 0x40 + (b2 - 0x80)) :: cs)
        else none
      | [] => none
    else if b < 0xF0 then
      match rest with
      | b2 :: b3 :: rest3 =>
        if (if b = 0xE0 then 0xA0 else 0x80) ≤ b2 ∧
            b2 ≤ (if b = 0xED then 0x9F else 0xBF) ∧
            0x80 ≤ b3 ∧ b3 ≤ 0xBF then
          (utf8Decode rest3).map (fun cs =>
            Char.ofNat ((b - 0xE0) * 0x1000 + (b2 - 0x80) * 0x40 + (b3 - 0x80)) :: cs)
        else none
      | _ => none
    else if b < 0xF5 then
      match rest with
      | b2 :: b3 :: b4 :: rest4 =>
        if (if b = 0xF0 then 0x90 else 0x80) ≤ b2 ∧
            b2 ≤ (if b = 0xF4 then 0x8F else 0xBF) ∧
            0x80 ≤ b3 ∧ b3 ≤ 0xBF ∧ 0x80 ≤ b4 ∧ b4 ≤ 0xBF then
          (utf8Decode rest4).map (fun cs =>
            Char.ofNat ((b - 0xF0) * 0x40000 + (b2 - 0x80) * 0x1000 +
              (b3 - 0x80) * 0x40 + (b4 - 0x80)) :: cs)
        else none
      | _ => none
    else none

/-- Indexed enumeration of a list starting at `i`, modelling Rust
`Iterator::enumerate`. -/
def enumIdx (i : Nat) : List α → List (Nat × α)
  | [] => []
  | a :: l => (i, a) :: enumIdx (i + 1) l

/-- One output line of a line diff. -/
inductive DLine
  | ctx (s : List Char)
  | add (s : List Char)
  | del (s : List Char)
deriving DecidableEq

/-- Simple line-diff model of the external blob-diff capability (spec
section 6).  Only its degenerate behaviour matters to the claims: with an empty
old side every line of the new side is an addition, and symmetrically. -/
def diffL : List (List Char) → List (List Char) → List DLine
  | [], ns => ns.map DLine.add
  | os, [] => os.map DLine.del
  | o :: os, n :: ns =>
    if o = n then DLine.ctx o :: diffL os ns
    else DLine.del o :: DLine.add n :: diffL os ns

def countAdds (d : List DLine) : Nat :=
  d.countP (fun x => match x with | DLine.add _ => true | _ => false)

def countDels (d : List DLine) : Nat :=
  d.countP (fun x => match x with | DLine.del _ => true | _ => false)

/-! ## Log rendering (`get_log`, src/lib.rs:478-557) -/

/-- The enumerated first-parent revision walk of `get_log`
(src/lib.rs:490-542): at index `i`, when a bound `l` is supplied and `l ≤ i`
the loop breaks — note that the element at index `l` has already been pulled
from the iterator by the `for` loop before the check runs.  Returns the
rendered commits and the value of the subsequent `revs.count()`
(src/lib.rs:543), i.e. the number of elements left in the iterator. -/
def logWalk (logLength : Option Nat) : Nat → List Nat → List Nat × Nat
  | _, [] => ([], 0)
  | i, c :: rest =>
    match logLength with
    | some l =>
      if l ≤ i then ([], rest.length)
      else
        let r := logWalk logLength (i + 1) rest
        (c :: r.1, r.2)
    | none =>
      let r := logWalk logLength (i + 1) rest
      (c :: r.1, r.2)

/-- Text of the synthetic trailing log row (src/lib.rs:547). -/
def trailingRowText (rem : Nat) : String :=
  toString rem ++ " more commits remaining, fetch the repository"

/-- The log table produced by `get_log` (src/lib.rs:478-557), abstracted to
the list of rendered commit ids plus the optional trailing row: the trailing
row is appended exactly when `revs.count()` is positive (src/lib.rs:544). -/
def get_log (cs : List Nat) (logLength : Option Nat) : List Nat × Option String :=
  let r := logWalk logLength 0 cs
  (r.1, if r.2 > 0 then some (trailingRowText r.2) else none)

/-! ## Relative link computation (`to_root_path`, src/lib.rs:893-896, and
`Meta::write_html_content_to_file`, src/lib.rs:104-131) -/

/-- `to_root_path` (src/lib.rs:893-896): strip the output-root base from the
page's full output path (modelled as segment lists), then repeat `"../"` for
each remaining component except the page's own filename
(`saturating_sub 1`). -/
def to_root_path (p base : List String) : String :=
  strRepeat "../" ((p.drop base.length).length - 1)

/-- The index-root link computed by `Meta::write_html_content_to_file`
(src/lib.rs:122): one more `"../"` prepended to the repository-root link. -/
def toIndexRootPath (p base : List String) : String :=
  "../" ++ to_root_path p base

/-! ## Metadata loading (`Meta::load` / `Meta::load_meta_file`,
src/lib.rs:39-102) -/

deriving instance DecidableEq for Except

/-- State of one optional metadata file in the repository control directory:
whether `Path::is_file` reports it as a file, and the outcome of
`read_to_string` on it. -/
structure MetaFileState where
  isFile : Bool
  readRes : Except String String
deriving DecidableEq

/-- The four optional metadata files consulted by `Meta::load`. -/
structure MetaFs where
  description : MetaFileState
  url : MetaFileState
  owner : MetaFileState
  pages : MetaFileState
deriving DecidableEq

/-- `Meta::load_meta_file` (src/lib.rs:93-102): a path that is not a file
yields `Ok(None)`; otherwise the `read_to_string` result is propagated with
`?`, and on success the content is trimmed and wrapped in `Some`. -/
def load_meta_file (f : MetaFileState) : Except String (Option String) :=
  if f.isFile then
    match f.readRes with
    | Except.ok c => Except.ok (some c.trim)
    | Except.error e => Except.error e
  else Except.ok none

/-- The metadata fields produced from the four optional files. -/
structure MetaFields where
  description : String
  url : String
  owner : String
  pages : Option String
deriving DecidableEq

/-- The optional-file portion of `Meta::load` (src/lib.rs:40-57): each
`load_meta_file` result is propagated with `?`; `description`/`url`/`owner`
are defaulted to the empty string, `pages` stays an `Option`; a diagnostic
line is emitted for each empty/missing field. -/
def Meta_load (fs : MetaFs) : Except String (MetaFields × List String) :=
  match load_meta_file fs.description with
  | Except.error e => Except.error e
  | Except.ok dOpt =>
    let d := dOpt.getD ""
    let diags1 := if d = "" then ["no description file found"] else []
    match load_meta_file fs.url with
    | Except.error e => Except.error e
    | Except.ok uOpt =>
      let u := uOpt.getD ""
      let diags2 := if u = "" then ["no url file found"] else []
      match load_meta_file fs.owner with
      | Except.error e => Except.error e
      | Except.ok oOpt =>
        let o := oOpt.getD ""
        let diags3 := if o = "" then ["no owner file found"] else []
        match load_meta_file fs.pages with
        | Except.error e => Except.error e
        | Except.ok pOpt =>
          let diags4 := if pOpt.isNone then ["no pages file found"] else []
          Except.ok (⟨d, u, o, pOpt⟩, diags1 ++ diags2 ++ diags3 ++ diags4)

/-- A metadata file that cannot cause a read error: it is either missing
(`is_file` false) or reads successfully. -/
def fileBenign (f : MetaFileState) : Prop :=
  f.isFile = false ∨ ∃ c, f.readRes = Except.ok c

/-! ## README/LICENSE detection (`Meta::load`, src/lib.rs:66-80) -/

/-- Candidate readme filenames (src/lib.rs:25). -/
def README_FILES : List String := ["README", "README.md"]

/-- Candidate license filenames (src/lib.rs:26). -/
def LICENSE_FILES : List String := ["LICENSE", "LICENSE.md", "COPYING"]

/-- One top-level entry of the head tree, as seen by `head_tree.iter()`:
its filename and whether its mode is a blob. -/
structure TreeEntry where
  filename : String
  isBlob : Bool
deriving DecidableEq

/-- One iteration of the detection loop (src/lib.rs:69-80): non-blob entries
are skipped; a filename in `README_FILES` overwrites the readme slot, else a
filename in `LICENSE_FILES` overwrites the license slot. -/
def metaScanStep (acc : Option String × Option String) (e : TreeEntry) :
    Option String × Option String :=
  if !e.isBlob then acc
  else if README_FILES.contains e.filename then (some e.filename, acc.2)
  else if LICENSE_FILES.contains e.filename then (acc.1, some e.filename)
  else acc

/-- The README/LICENSE detection scan over the top-level entries of the head
tree (src/lib.rs:66-80; `Tree::iter` lists only direct children, so nested
entries never reach this loop). -/
def metaScan (entries : List TreeEntry) : Option String × Option String :=
  entries.foldl metaScanStep (none, none)

/-- Modelled from the spec's words, for refinement comparison only: detection
in which “the first match in the fixed ordered candidate list wins” — the
first candidate name that occurs among the top-level blob entries. -/
def specFirstCandidate (cands : List String) (entries : List TreeEntry) :
    Option String :=
  cands.find? (fun c => entries.any (fun e => e.isBlob && e.filename == c))

/-- Left-biased choice on options. -/
def optOr (x y : Option String) : Option String :=
  match x with
  | some v => some v
  | none => y

/-- The filename of the last entry (in iteration order) that is a blob and
matches the candidate list — what the overwrite loop actually records. -/
def lastMatch (cands : List String) : List TreeEntry → Option String
  | [] => none
  | e :: l =>
    optOr (lastMatch cands l)
      (if e.isBlob && cands.contains e.filename then some e.filename else none)

/-! ## Trees, blobs and per-commit diffs
(`get_log` base selection src/lib.rs:506-515, `get_commits`
src/lib.rs:559-754) -/

/-- A git tree modelled as a flat association of paths to blob byte
contents. -/
abbrev GTree := List (String × List Nat)

/-- The empty tree (`repo.empty_tree()`, src/lib.rs:513/623). -/
def emptyTree : GTree := []

def treePaths (t : GTree) : List String := t.map (fun e => e.1)

/-- Kinds of tree-level changes (gix `Change` variants, src/lib.rs:642-647). -/
inductive Ckind
  | addition
  | deletion
  | modification
  | rewrite
deriving DecidableEq

/-- A commit as seen by the history renderer: its id, ordered parent ids and
tree. -/
structure Commit3 where
  id : Nat
  parentIds : List Nat
  tree : GTree

/-- The diff-base tree chosen in `get_log` (src/lib.rs:507-514) and
`get_commits` (src/lib.rs:616-624): `ancestors().first_parent_only()` starting
at the commit yields the commit itself first, so `skip(1).next()` is its first
parent; if there is none, `repo.empty_tree()` is used.  (A parent id whose
commit cannot be found would abort the walk; the `emptyTree` fallback in that
arm is unreachable under the theorems' hypotheses.) -/
def diffBaseTree (lookup : Nat → Option Commit3) (c : Commit3) : GTree :=
  match c.parentIds.head? with
  | none => emptyTree
  | some p =>
    match lookup p with
    | some pc => pc.tree
    | none => emptyTree

/-- A path-level change as enumerated by the external tree-diff capability
(spec section 6), with old/new blob contents attached. -/
structure Change3 where
  kind : Ckind
  path : String
  oldData : Option (List Nat)
  newData : Option (List Nat)

/-- Model of the external tree-diff enumeration (spec section 6): a path only
in the new tree is an Addition, only in the old tree a Deletion, in both with
different content a Modification. -/
def changesModel (old new : GTree) : List Change3 :=
  let adds := (new.filter (fun e => !(treePaths old).contains e.1)).map
    (fun e => ⟨Ckind.addition, e.1, none, some e.2⟩)
  let mods := (new.filter (fun e =>
      match List.lookup e.1 old with
      | some c => c != e.2
      | none => false)).map
    (fun e => ⟨Ckind.modification, e.1, List.lookup e.1 old, some e.2⟩)
  let dels := (old.filter (fun e => !(treePaths new).contains e.1)).map
    (fun e => ⟨Ckind.deletion, e.1, some e.2, none⟩)
  adds ++ mods ++ dels

/-- Lines of a blob's bytes (empty for undecodable/binary content). -/
def linesOfBytes (bs : List Nat) : List (List Char) :=
  match utf8Decode bs with
  | some cs => rustLines cs
  | none => []

def lineCountB (bs : List Nat) : Nat := (linesOfBytes bs).length

/-- Per-change line counts of the external diff capability: an addition adds
every line of the new content, a deletion removes every line of the old one,
otherwise the line diff is counted. -/
def changeLineCounts (c : Change3) : Nat × Nat :=
  match c.kind with
  | Ckind.addition => (lineCountB (c.newData.getD []), 0)
  | Ckind.deletion => (0, lineCountB (c.oldData.getD []))
  | _ =>
    let d := diffL (linesOfBytes (c.oldData.getD [])) (linesOfBytes (c.newData.getD []))
    (countAdds d, countDels d)

/-- Model of `ancestor_tree.changes()?.stats(&tree)` (src/lib.rs:515):
files changed, lines added, lines removed accumulated over all changes. -/
def statsModel (old new : GTree) : Nat × Nat × Nat :=
  (changesModel old new).foldl
    (fun acc c =>
      (acc.1 + 1, acc.2.1 + (changeLineCounts c).1, acc.2.2 + (changeLineCounts c).2))
    (0, 0, 0)

/-! ## Diffstat aggregation in `get_commits` (src/lib.rs:626-671, 740-743) -/

/-- A changed entry as the `for_each_to_obtain_tree` callback sees it: whether
its entry mode is a tree, its change kind, and the result of
`diff.line_counts()` — `none` when no line counts are available (binary
content). -/
structure ChangeRec where
  isTree : Bool
  kind : Ckind
  lineCounts : Option (Nat × Nat)
deriving DecidableEq

/-- One callback invocation's effect on the three running totals
(src/lib.rs:637-659): tree entries return early; otherwise the totals are
bumped only inside `if let Some(counts) = diff.line_counts()`. -/
def aggregateStep (acc : Nat × Nat × Nat) (ch : ChangeRec) : Nat × Nat × Nat :=
  if ch.isTree then acc
  else
    match ch.lineCounts with
    | some c => (acc.1 + 1, acc.2.1 + c.1, acc.2.2 + c.2)
    | none => acc

/-- The aggregate DiffStat `(total_files_changed, total_lines_added,
total_lines_removed)` of one commit (src/lib.rs:626-659, reported at
src/lib.rs:740-743). -/
def aggregate (changes : List ChangeRec) : Nat × Nat × Nat :=
  changes.foldl aggregateStep (0, 0, 0)

/-- A non-tree change that has line counts — the changes the code counts. -/
def countedChange (ch : ChangeRec) : Bool :=
  !ch.isTree && ch.lineCounts.isSome

/-- Any non-tree change — what the claim says is counted. -/
def nonTreeChange (ch : ChangeRec) : Bool := !ch.isTree

def changeAdds (ch : ChangeRec) : Nat :=
  if ch.isTree then 0 else ((ch.lineCounts.map (fun c => c.1)).getD 0)

def changeRems (ch : ChangeRec) : Nat :=
  if ch.isTree then 0 else ((ch.lineCounts.map (fun c => c.2)).getD 0)

/-! ## Unified-diff content preparation in `get_commits`
(src/lib.rs:674-734) -/

/-- A change as consumed by the unified-diff section: kind plus the recorded
source (old) and current (new) locations.  gix's `Change::location()` returns
the current location for every variant. -/
structure ChangeX where
  kind : Ckind
  sourceLocation : String
  location : String
deriving DecidableEq

/-- gix `Change::location()` — the destination/current path, also for
`Rewrite` (used for both tree lookups at src/lib.rs:698 and 711). -/
def changeLocation (ch : ChangeX) : String := ch.location

/-- The `(old_location, new_location)` pair of the diff header
(src/lib.rs:674-689): only a `Rewrite` distinguishes the two. -/
def headerLocations (ch : ChangeX) : String × String :=
  match ch.kind with
  | Ckind.rewrite => (ch.sourceLocation, ch.location)
  | _ => (ch.location, ch.location)

/-- The `--- old\n+++ new\n` marker (src/lib.rs:691). -/
def locationMarker (ch : ChangeX) : String :=
  "--- " ++ (headerLocations ch).1 ++ "\n+++ " ++ (headerLocations ch).2 ++ "\n"

/-- Blob-to-string preparation for the unified diff (src/lib.rs:697-722): an
absent entry yields the empty string; present content is decoded as UTF-8,
with the fixed placeholder `"binary_file"` substituted on invalid bytes
(`String::from_utf8(..).unwrap_or_else(|_| "binary_file".to_owned())`). -/
def blobToDiffString (entry : Option (List Nat)) : String :=
  match entry with
  | none => ""
  | some bs =>
    match utf8Decode bs with
    | some cs => String.mk cs
    | none => "binary_file"

/-- The old-side diff content: looked up in the ancestor tree at
`change.location()` — the change's *new* location (src/lib.rs:697-709). -/
def oldDiffString (ancestorTree : GTree) (ch : ChangeX) : String :=
  blobToDiffString (ancestorTree.lookup (changeLocation ch))

/-- The new-side diff content: looked up in the commit's tree at
`change.location()` (src/lib.rs:710-722). -/
def newDiffString (tree : GTree) (ch : ChangeX) : String :=
  blobToDiffString (tree.lookup (changeLocation ch))

/-- The unified diff body rendered from the two prepared strings
(src/lib.rs:723-732), modelled at the line level. -/
def unifiedDiffLines (oldS newS : String) : List DLine :=
  diffL (rustLines oldS.data) (rustLines newS.data)

/-! ## File-tree rendering (`get_files`, src/lib.rs:756-834) -/

/-- Anchor id given to the line at zero-based index `i` (src/lib.rs:793). -/
def lineAnchorId (i : Nat) : String := "l" ++ toString i

/-- The per-line anchors of a valid-UTF-8 file page (src/lib.rs:787-801):
for each enumerated line, the anchor id and the displayed line number. -/
def renderFileLines (cs : List Char) : List (String × Nat) :=
  (enumIdx 0 (rustLines cs)).map (fun p => (lineAnchorId p.1, p.1))

/-- The size column entry for a valid-UTF-8 file (src/lib.rs:805): the total
line count with an `L` suffix. -/
def fileSizeLabel (cs : List Char) : String :=
  toString (rustLines cs).length ++ "L"

theorem logWalk_some_eq (l : Nat) (cs : List Nat) : ∀ i : Nat,
    logWalk (some l) i cs =
      (cs.take (l - i), if l - i < cs.length then cs.length - (l - i) - 1 else 0) := by
  induction cs with
  | nil => intro i; simp [logWalk]
  | cons c rest ih =>
    intro i
    simp only [logWalk]
    by_cases h : l ≤ i
    · rw [if_pos h]
      have h0 : l - i = 0 := Nat.sub_eq_zero_of_le h
      simp [h0]
    · rw [if_neg h]
      rw [ih (i + 1)]
      have h1 : l - i = (l - (i + 1)) + 1 := by omega
      rw [h1]
      simp only [List.take_succ_cons, List.length_cons, Prod.mk.injEq]
      refine ⟨trivial, ?_⟩
      · by_cases h2 : l - (i + 1) < rest.length
        · rw [if_pos h2, if_pos (by omega)]
          omega
        · rw [if_neg h2, if_neg (by omega)]

/-- Claim C1 (amended): with a supplied bound `l`, the log renders
`min l N` commit rows; a trailing row appears exactly when `l + 1 < N`,
reporting `N - l - 1` remaining commits. -/
theorem get_log_truncation (cs : List Nat) (l : Nat) :
    ((l < cs.length → (get_log cs (some l)).1.length = l) ∧
      (cs.length ≤ l → (get_log cs (some l)).1 = cs)) ∧
    ((l + 1 < cs.length →
        (get_log cs (some l)).2 = some (trailingRowText (cs.length - l - 1))) ∧
      (cs.length ≤ l + 1 → (get_log cs (some l)).2 = none)) := by
  have h := logWalk_some_eq l cs 0
  simp only [Nat.sub_zero] at h
  constructor
  · constructor
    · intro hl
      simp [get_log, h, List.length_take, Nat.min_eq_left (Nat.le_of_lt hl)]
    · intro hl
      simp [get_log, h, List.take_of_length_le hl]
  · constructor
    · intro hl
      simp only [get_log, h]
      rw [if_pos (show l < cs.length by omega)]
      rw [if_pos (show cs.length - l - 1 > 0 by omega)]
    · intro hl
      simp only [get_log, h]
      by_cases h2 : l < cs.length
      · rw [if_pos h2]
        rw [if_neg (show ¬ cs.length - l - 1 > 0 by omega)]
      · rw [if_neg h2]
        simp

theorem get_log_truncation_witness :
    (get_log [0, 1, 2, 3] (some 2)).1.length = 2 ∧
      (get_log [0, 1, 2, 3] (some 2)).2 =
        some (trailingRowText 1) := by
  refine ⟨(get_log_truncation [0, 1, 2, 3] 2).1.1 (by decide), ?_⟩
  have h := (get_log_truncation [0, 1, 2, 3] 2).2.1 (by decide)
  simpa using h

/-- Claim C1 counterexample: with `N = 2` commits and bound `L = 1 < N` the
code renders one row but produces NO trailing row (the claim requires one
reporting `N - L = 1` remaining commits): the `for` loop consumes the commit
at index `L` before breaking, so `revs.count()` is `0`. -/
theorem get_log_claim_counterexample :
    1 < ([0, 1] : List Nat).length ∧
      (get_log [0, 1] (some 1)).1.length = 1 ∧
      (get_log [0, 1] (some 1)).2 = none ∧
      (get_log [0, 1] (some 1)).2 ≠ some (trailingRowText (2 - 1)) := by
  decide

theorem strFoldlAppend (l : List String) : ∀ a : String,
    List.foldl (fun r s => r ++ s) a l = a ++ List.foldl (fun r s => r ++ s) "" l := by
  induction l with
  | nil => intro a; simp [List.foldl, String.append_empty]
  | cons c t ih =>
    intro a
    simp only [List.foldl]
    rw [ih (a ++ c), ih (("" : String) ++ c), String.append_assoc]
    rfl

theorem strRepeat_eq_join (s : String) (n : Nat) :
    strRepeat s n = String.join (List.replicate n s) := by
  induction n with
  | zero => simp [strRepeat, String.join]
  | succ n ih =>
    simp only [strRepeat, ih, List.replicate_succ, String.join, List.foldl]
    exact (strFoldlAppend (List.replicate n s) s).symm

/-- Claim C4: a page whose output path lies `d ≥ 1` segments below the
repository output root gets the repository-root link `"../"` repeated
`d - 1` times (empty at the root itself, `d = 1`), and the index-root link is
exactly one more `"../"`, i.e. `"../"` repeated `d` times — independently of
the nesting depth. -/
theorem to_root_path_depth (base rel : List String) (h : 1 ≤ rel.length) :
    to_root_path (base ++ rel) base = String.join (List.replicate (rel.length - 1) "../") ∧
      toIndexRootPath (base ++ rel) base = String.join (List.replicate rel.length "../") := by
  have hdrop : (base ++ rel).drop base.length = rel := by
    simp [List.drop_left]
  constructor
  · rw [to_root_path, hdrop, strRepeat_eq_join]
  · rw [toIndexRootPath, to_root_path, hdrop, strRepeat_eq_join]
    have : rel.length = (rel.length - 1) + 1 := by omega
    rw [this, List.replicate_succ, String.join, String.join, List.foldl]
    simp only [Nat.add_sub_cancel]
    exact (strFoldlAppend (List.replicate (rel.length - 1) "../") "../").symm

theorem to_root_path_depth_witness :
    to_root_path (["out", "repo"] ++ ["files", "a", "b.html"]) ["out", "repo"] =
        String.join (List.replicate 2 "../") ∧
      toIndexRootPath (["out", "repo"] ++ ["files", "a", "b.html"]) ["out", "repo"] =
        String.join (List.replicate 3 "../") := by
  have h := to_root_path_depth ["out", "repo"] ["files", "a", "b.html"] (by decide)
  simpa using h

theorem optOr_none_right (x : Option String) : optOr x none = x := by
  cases x <;> rfl

theorem optOr_assoc (x y z : Option String) :
    optOr (optOr x y) z = optOr x (optOr y z) := by
  cases x <;> rfl

theorem readme_license_disjoint (f : String)
    (h : README_FILES.contains f = true) : LICENSE_FILES.contains f = false := by
  have h1 : f ∈ README_FILES := List.mem_of_elem_eq_true h
  simp only [README_FILES, List.mem_cons, List.not_mem_nil, or_false] at h1
  rcases h1 with h1 | h1 <;> subst h1 <;> decide

theorem metaScanStep_fst (acc : Option String × Option String) (e : TreeEntry) :
    (metaScanStep acc e).1 =
      optOr (if e.isBlob && README_FILES.contains e.filename then some e.filename else none)
        acc.1 := by
  cases hb : e.isBlob
  · simp [metaScanStep, hb, optOr]
  · cases hr : README_FILES.contains e.filename
    · have hrm : e.filename ∉ README_FILES := by simpa using hr
      cases hlc : LICENSE_FILES.contains e.filename
      · have hlm : e.filename ∉ LICENSE_FILES := by simpa using hlc
        simp [metaScanStep, hb, hr, hlc, hrm, hlm, optOr]
      · have hlm : e.filename ∈ LICENSE_FILES := by simpa using hlc
        simp [metaScanStep, hb, hr, hlc, hrm, hlm, optOr]
    · have hrm : e.filename ∈ README_FILES := by simpa using hr
      simp [metaScanStep, hb, hr, hrm, optOr]

theorem metaScanStep_snd (acc : Option String × Option String) (e : TreeEntry) :
    (metaScanStep acc e).2 =
      optOr (if e.isBlob && LICENSE_FILES.contains e.filename then some e.filename else none)
        acc.2 := by
  cases hb : e.isBlob
  · simp [metaScanStep, hb, optOr]
  · cases hr : README_FILES.contains e.filename
    · have hrm : e.filename ∉ README_FILES := by simpa using hr
      cases hlc : LICENSE_FILES.contains e.filename
      · have hlm : e.filename ∉ LICENSE_FILES := by simpa using hlc
        simp [metaScanStep, hb, hr, hlc, hrm, hlm, optOr]
      · have hlm : e.filename ∈ LICENSE_FILES := by simpa using hlc
        simp [metaScanStep, hb, hr, hlc, hrm, hlm, optOr]
    · have hrm : e.filename ∈ README_FILES := by simpa using hr
      have hl : LICENSE_FILES.contains e.filename = false :=
        readme_license_disjoint _ hr
      have hlm : e.filename ∉ LICENSE_FILES := by simpa using hl
      simp [metaScanStep, hb, hr, hl, hrm, hlm, optOr]

theorem metaScan_foldl (entries : List TreeEntry) : ∀ acc : Option String × Option String,
    entries.foldl metaScanStep acc =
      (optOr (lastMatch README_FILES entries) acc.1,
        optOr (lastMatch LICENSE_FILES entries) acc.2) := by
  induction entries with
  | nil => intro acc; simp [lastMatch, optOr]
  | cons e l ih =>
    intro acc
    simp only [List.foldl, lastMatch]
    rw [ih (metaScanStep acc e)]
    rw [optOr_assoc, optOr_assoc]
    rw [metaScanStep_fst, metaScanStep_snd]

/-- Claim C5 (amended): README/LICENSE detection scans only the top-level
entries of the head tree, records at most one filename of each kind, and when
several candidates are present the LAST matching blob entry in tree iteration
order wins (each match overwrites the slot), not the first name in the
candidate list. -/
theorem metaScan_last_match (entries : List TreeEntry) :
    metaScan entries =
      (lastMatch README_FILES entries, lastMatch LICENSE_FILES entries) := by
  rw [metaScan, metaScan_foldl entries (none, none)]
  simp [optOr_none_right]

/-- Claim C5 counterexample: a head tree whose top level lists `README` then
`README.md` (git tree order).  The code records `README.md` — the last match
in iteration order — while the claim's candidate-list-first rule would record
`README`. -/
theorem metaScan_claim_counterexample :
    (metaScan [⟨"README", true⟩, ⟨"README.md", true⟩]).1 = some "README.md" ∧
      specFirstCandidate README_FILES [⟨"README", true⟩, ⟨"README.md", true⟩] =
        some "README" ∧
      (some "README.md" : Option String) ≠ some "README" := by
  decide

set_option maxHeartbeats 3200000 in
/-- Claim C6 (amended): for each optional metadata file (description, url,
owner, pages) independently, a MISSING file is not an error — the field
defaults to empty (description/url/owner) or `None` (pages), the matching
diagnostic is emitted, and loading continues; readable contents come back
trimmed (`pages` as `Some` of the trimmed content); and when every file is
missing-or-readable, loading succeeds.  However, a file that exists but fails
to read propagates its read error out of metadata loading (for url, owner and
pages: once the files checked before it are themselves missing-or-readable,
so that the earlier checks do not error first). -/
theorem meta_load_missing_and_trim (fs : MetaFs) :
    (∀ fields diags, Meta_load fs = Except.ok (fields, diags) →
      (fs.description.isFile = false →
        fields.description = "" ∧ "no description file found" ∈ diags) ∧
      (fs.url.isFile = false → fields.url = "" ∧ "no url file found" ∈ diags) ∧
      (fs.owner.isFile = false → fields.owner = "" ∧ "no owner file found" ∈ diags) ∧
      (fs.pages.isFile = false → fields.pages = none ∧ "no pages file found" ∈ diags)) ∧
    (∀ fields diags, Meta_load fs = Except.ok (fields, diags) →
      (∀ c, fs.description.isFile = true → fs.description.readRes = Except.ok c →
        fields.description = c.trim) ∧
      (∀ c, fs.url.isFile = true → fs.url.readRes = Except.ok c → fields.url = c.trim) ∧
      (∀ c, fs.owner.isFile = true → fs.owner.readRes = Except.ok c →
        fields.owner = c.trim) ∧
      (∀ c, fs.pages.isFile = true → fs.pages.readRes = Except.ok c →
        fields.pages = some c.trim)) ∧
    (fileBenign fs.description → fileBenign fs.url → fileBenign fs.owner →
      fileBenign fs.pages →
      ∃ fields diags, Meta_load fs = Except.ok (fields, diags)) ∧
    ((∀ e, fs.description.isFile = true → fs.description.readRes = Except.error e →
        Meta_load fs = Except.error e) ∧
      (∀ e, fs.url.isFile = true → fs.url.readRes = Except.error e →
        fileBenign fs.description → Meta_load fs = Except.error e) ∧
      (∀ e, fs.owner.isFile = true → fs.owner.readRes = Except.error e →
        fileBenign fs.description → fileBenign fs.url → Meta_load fs = Except.error e) ∧
      (∀ e, fs.pages.isFile = true → fs.pages.readRes = Except.error e →
        fileBenign fs.description → fileBenign fs.url → fileBenign fs.owner →
        Meta_load fs = Except.error e)) := by
  obtain ⟨⟨db, dr⟩, ⟨ub, ur⟩, ⟨ob, orr⟩, ⟨pb, pr⟩⟩ := fs
  cases db <;> cases ub <;> cases ob <;> cases pb <;>
    cases dr <;> cases ur <;> cases orr <;> cases pr <;>
    simp [Meta_load, load_meta_file, fileBenign]

theorem meta_load_witness :
    ∃ fields diags,
      Meta_load ⟨⟨true, Except.ok "  hi  "⟩, ⟨false, Except.ok ""⟩,
          ⟨true, Except.ok " bob "⟩, ⟨true, Except.ok "docs"⟩⟩ =
        Except.ok (fields, diags) ∧
      fields.description = "  hi  ".trim ∧
      fields.url = "" ∧ "no url file found" ∈ diags ∧
      fields.owner = " bob ".trim ∧
      fields.pages = some ("docs".trim) := by
  have h := meta_load_missing_and_trim ⟨⟨true, Except.ok "  hi  "⟩, ⟨false, Except.ok ""⟩,
    ⟨true, Except.ok " bob "⟩, ⟨true, Except.ok "docs"⟩⟩
  obtain ⟨fields, diags, hok⟩ :=
    h.2.2.1 (Or.inr ⟨_, rfl⟩) (Or.inl rfl) (Or.inr ⟨_, rfl⟩) (Or.inr ⟨_, rfl⟩)
  exact ⟨fields, diags, hok,
    (h.2.1 fields diags hok).1 "  hi  " rfl rfl,
    ((h.1 fields diags hok).2.1 rfl).1,
    ((h.1 fields diags hok).2.1 rfl).2,
    (h.2.1 fields diags hok).2.2.1 " bob " rfl rfl,
    (h.2.1 fields diags hok).2.2.2 "docs" rfl rfl⟩

/-- Claim C6 counterexample: a `description` file that exists
(`is_file` true) but whose read fails makes `Meta::load` return the error —
the claim's “a missing or unreadable file never makes metadata loading return
an error” is false for the unreadable case. -/
theorem meta_load_claim_counterexample :
    Meta_load ⟨⟨true, Except.error "permission denied"⟩, ⟨false, Except.ok ""⟩,
        ⟨false, Except.ok ""⟩, ⟨false, Except.ok ""⟩⟩ =
      Except.error "permission denied" := by
  rfl

theorem addChange_counts_fst (t : GTree) :
    ((t.map (fun e => (⟨Ckind.addition, e.1, none, some e.2⟩ : Change3))).map
        (fun ch => (changeLineCounts ch).1)).sum =
      (t.map (fun e => lineCountB e.2)).sum := by
  induction t with
  | nil => simp
  | cons e l ih =>
    simp only [List.map_cons, List.sum_cons]
    rw [ih]
    simp [changeLineCounts]

theorem addChange_counts_snd (t : GTree) :
    ((t.map (fun e => (⟨Ckind.addition, e.1, none, some e.2⟩ : Change3))).map
        (fun ch => (changeLineCounts ch).2)).sum = 0 := by
  induction t with
  | nil => simp
  | cons e l ih =>
    simp only [List.map_cons, List.sum_cons]
    rw [ih]
    simp [changeLineCounts]

theorem changesModel_nil_left (t : GTree) :
    changesModel [] t = t.map (fun e => ⟨Ckind.addition, e.1, none, some e.2⟩) := by
  simp [changesModel, treePaths, List.lookup]

theorem statsFoldl (l : List Change3) : ∀ a b c : Nat,
    l.foldl (fun acc ch =>
        (acc.1 + 1, acc.2.1 + (changeLineCounts ch).1, acc.2.2 + (changeLineCounts ch).2))
      (a, b, c) =
      (a + l.length, b + (l.map (fun ch => (changeLineCounts ch).1)).sum,
        c + (l.map (fun ch => (changeLineCounts ch).2)).sum) := by
  induction l with
  | nil => intro a b c; simp
  | cons ch t ih =>
    intro a b c
    simp only [List.foldl, List.map, List.sum_cons, List.length_cons]
    rw [ih]
    simp only [Prod.mk.injEq]
    refine ⟨by omega, by omega, by omega⟩

/-- Claim C3: the history renderer's diff base is the tree of the commit's
first parent, and the empty tree for a parentless (root) commit; hence every
path of a root commit is reported as an Addition, and a root commit's DiffStat
is the sum over all its paths treated as additions. -/
theorem root_commit_diff_base (lookup : Nat → Option Commit3) (c : Commit3) :
    (c.parentIds = [] →
      diffBaseTree lookup c = emptyTree ∧
      (∀ ch ∈ changesModel emptyTree c.tree, ch.kind = Ckind.addition) ∧
      (changesModel emptyTree c.tree).map (fun ch => ch.path) = treePaths c.tree ∧
      statsModel emptyTree c.tree =
        (c.tree.length, (c.tree.map (fun e => lineCountB e.2)).sum, 0)) ∧
    (∀ p pc, c.parentIds.head? = some p → lookup p = some pc →
      diffBaseTree lookup c = pc.tree) := by
  constructor
  · intro hroot
    refine ⟨?_, ?_, ?_, ?_⟩
    · simp [diffBaseTree, hroot]
    · intro ch hch
      rw [emptyTree, changesModel_nil_left] at hch
      simp only [List.mem_map] at hch
      obtain ⟨e, _, he⟩ := hch
      rw [← he]
    · rw [emptyTree, changesModel_nil_left]
      simp [treePaths, List.map_map]
    · rw [statsModel, emptyTree, changesModel_nil_left, statsFoldl]
      rw [addChange_counts_fst, addChange_counts_snd]
      simp
  · intro p pc hp hpc
    simp [diffBaseTree, hp, hpc]

theorem root_commit_diff_base_witness :
    diffBaseTree (fun _ => none)
        ⟨1, [], [("a.txt", [120, 10, 121]), ("b.txt", [122])]⟩ = emptyTree ∧
      statsModel emptyTree [("a.txt", [120, 10, 121]), ("b.txt", [122])] = (2, 3, 0) ∧
      diffBaseTree
          (fun n => if n = 1 then some ⟨1, [], [("a.txt", [120, 10, 121])]⟩ else none)
          ⟨2, [1], []⟩ =
        [("a.txt", [120, 10, 121])] := by
  have h := (root_commit_diff_base (fun _ => none)
    ⟨1, [], [("a.txt", [120, 10, 121]), ("b.txt", [122])]⟩).1 rfl
  refine ⟨h.1, ?_, ?_⟩
  · rw [h.2.2.2]
    decide
  · exact (root_commit_diff_base
      (fun n => if n = 1 then some ⟨1, [], [("a.txt", [120, 10, 121])]⟩ else none)
      ⟨2, [1], []⟩).2 1 ⟨1, [], [("a.txt", [120, 10, 121])]⟩ rfl rfl

theorem aggregateFoldl (changes : List ChangeRec) : ∀ a b c : Nat,
    changes.foldl aggregateStep (a, b, c) =
      (a + (changes.filter countedChange).length,
        b + (changes.map changeAdds).sum, c + (changes.map changeRems).sum) := by
  induction changes with
  | nil => intro a b c; simp
  | cons ch t ih =>
    intro a b c
    simp only [List.foldl]
    cases hT : ch.isTree
    · cases hC : ch.lineCounts with
      | none =>
        rw [show aggregateStep (a, b, c) ch = (a, b, c) by simp [aggregateStep, hT, hC]]
        rw [ih]
        simp [List.filter, countedChange, changeAdds, changeRems, hT, hC]
      | some cnt =>
        rw [show aggregateStep (a, b, c) ch = (a + 1, b + cnt.1, c + cnt.2) by
          simp [aggregateStep, hT, hC]]
        rw [ih]
        have hA : changeAdds ch = cnt.1 := by simp [changeAdds, hT, hC]
        have hR : changeRems ch = cnt.2 := by simp [changeRems, hT, hC]
        have hF : countedChange ch = true := by simp [countedChange, hT, hC]
        simp only [List.filter_cons, List.map, List.sum_cons, hF, hA, hR,
          List.length_cons, if_true, Prod.mk.injEq]
        refine ⟨by omega, by omega, by omega⟩
    · rw [show aggregateStep (a, b, c) ch = (a, b, c) by simp [aggregateStep, hT]]
      rw [ih]
      simp [List.filter, countedChange, changeAdds, changeRems, hT]

/-- Claim C8 (amended): the aggregate DiffStat sums `linesAdded` and
`linesRemoved` over all of the commit's ChangeRecords (binary records,
whose line counts are unavailable, contribute zero), and `filesChanged`
equals the count of non-tree changed paths FOR WHICH LINE COUNTS ARE
AVAILABLE: tree entries are skipped, and so are binary changes. -/
theorem aggregate_diffstat (changes : List ChangeRec) :
    aggregate changes =
      ((changes.filter countedChange).length,
        (changes.map changeAdds).sum, (changes.map changeRems).sum) := by
  rw [aggregate, aggregateFoldl]
  simp

/-- Claim C8 counterexample: a commit whose single changed path is a non-tree
binary modification (no line counts).  The claim's `filesChanged = count of
non-tree changed paths = 1` fails: the code reports `0` files changed. -/
theorem aggregate_claim_counterexample :
    (aggregate [⟨false, Ckind.modification, none⟩]).1 = 0 ∧
      ([(⟨false, Ckind.modification, none⟩ : ChangeRec)].filter nonTreeChange).length = 1 ∧
      (aggregate [⟨false, Ckind.modification, none⟩]).1 ≠
        ([(⟨false, Ckind.modification, none⟩ : ChangeRec)].filter nonTreeChange).length := by
  decide

/-- Claim C7 (amended): a changed path whose blob content is not valid UTF-8
has that side rendered as the fixed placeholder string "binary_file" (NOT as
the empty string; the empty string arises only when the path is absent from
the tree), and binary content never makes the diff rendering fail. -/
theorem binary_blob_placeholder (bs : List Nat) (h : utf8Decode bs = none) :
    blobToDiffString (some bs) = "binary_file" ∧ blobToDiffString none = "" := by
  simp [blobToDiffString, h]

theorem binary_blob_placeholder_witness :
    utf8Decode [255] = none ∧
      blobToDiffString (some [255]) = "binary_file" ∧ blobToDiffString none = "" :=
  ⟨by decide, (binary_blob_placeholder [255] (by decide)).1,
    (binary_blob_placeholder [255] (by decide)).2⟩

/-- Claim C7 counterexample: the byte `0xFF` is not valid UTF-8; the code
renders that side as the placeholder "binary_file", refuting the claim that
binary content is rendered as an empty string. -/
theorem binary_blob_claim_counterexample :
    utf8Decode [255] = none ∧ blobToDiffString (some [255]) ≠ "" := by
  decide

theorem enumIdx_getElem (l : List α) : ∀ i n : Nat,
    (enumIdx i l)[n]? = (l[n]?).map (fun a => (i + n, a)) := by
  induction l with
  | nil => intro i n; simp [enumIdx]
  | cons a t ih =>
    intro i n
    cases n with
    | zero => simp [enumIdx]
    | succ m =>
      simp only [enumIdx, List.getElem?_cons_succ, ih (i + 1) m]
      have hidx : i + 1 + m = i + (m + 1) := by omega
      rw [hidx]

/-- Claim C9: for a valid-UTF-8 file, per-line anchors are zero-based — the
first line gets anchor id `l0` and displayed number 0, the k-th line
(1-indexed) gets anchor `l(k-1)` — while the listing size is the total
(1-based) line count with an `L` suffix. -/
theorem file_line_anchors (bs : List Nat) (cs : List Char)
    (h : utf8Decode bs = some cs) :
    (∀ k, 1 ≤ k → k ≤ (rustLines cs).length →
      (renderFileLines cs)[k - 1]? = some (lineAnchorId (k - 1), k - 1)) ∧
    (1 ≤ (rustLines cs).length → (renderFileLines cs)[0]? = some ("l0", 0)) ∧
    fileSizeLabel cs = toString (rustLines cs).length ++ "L" := by
  have hmain : ∀ k, 1 ≤ k → k ≤ (rustLines cs).length →
      (renderFileLines cs)[k - 1]? = some (lineAnchorId (k - 1), k - 1) := by
    intro k h1 h2
    have hlt : k - 1 < (rustLines cs).length := by omega
    rw [renderFileLines, List.getElem?_map, enumIdx_getElem,
      List.getElem?_eq_getElem hlt]
    simp
  refine ⟨hmain, ?_, rfl⟩
  intro hlen
  have h0 := hmain 1 le_rfl hlen
  have hanchor : lineAnchorId 0 = "l0" := by decide
  simpa [hanchor] using h0

theorem file_line_anchors_witness :
    utf8Decode [97, 10, 98] = some ['a', '\n', 'b'] ∧
      (renderFileLines ['a', '\n', 'b'])[1]? = some (lineAnchorId 1, 1) ∧
      (renderFileLines ['a', '\n', 'b'])[0]? = some ("l0", 0) ∧
      fileSizeLabel ['a', '\n', 'b'] = "2L" := by
  have h := file_line_anchors [97, 10, 98] ['a', '\n', 'b'] (by decide)
  refine ⟨by decide, ?_, h.2.1 (by decide), ?_⟩
  · have h2 := h.1 2 (by decide) (by decide)
    simpa using h2
  · rw [h.2.2]
    decide

theorem diffL_nil_left (ns : List (List Char)) : diffL [] ns = ns.map DLine.add := by
  cases ns <;> rfl

/-- Claim C10: the old-side diff content is looked up in the parent tree at
the change's NEW location (`change.location()`), so for a Rewrite whose
source differs from its destination the old content resolves to the empty
string and the whole unified diff is additions — while the `--- / +++`
header correctly shows the distinct old and new locations. -/
theorem rewrite_old_side_lookup (ancestorTree tree : GTree) (ch : ChangeX)
    (hk : ch.kind = Ckind.rewrite)
    (hne : ch.sourceLocation ≠ ch.location)
    (habsent : ancestorTree.lookup ch.location = none) :
    oldDiffString ancestorTree ch = "" ∧
      unifiedDiffLines (oldDiffString ancestorTree ch) (newDiffString tree ch) =
        (rustLines (newDiffString tree ch).data).map DLine.add ∧
      locationMarker ch = "--- " ++ ch.sourceLocation ++ "\n+++ " ++ ch.location ++ "\n" := by
  have h1 : oldDiffString ancestorTree ch = "" := by
    simp [oldDiffString, changeLocation, habsent, blobToDiffString]
  refine ⟨h1, ?_, ?_⟩
  · rw [h1, unifiedDiffLines]
    rw [show ("" : String).data = [] from rfl]
    rw [show rustLines [] = [] from rfl]
    exact diffL_nil_left _
  · simp [locationMarker, headerLocations, hk]

theorem rewrite_old_side_lookup_witness :
    oldDiffString [("old.txt", [97])] ⟨Ckind.rewrite, "old.txt", "new.txt"⟩ = "" ∧
      unifiedDiffLines
          (oldDiffString [("old.txt", [97])] ⟨Ckind.rewrite, "old.txt", "new.txt"⟩)
          (newDiffString [("new.txt", [97, 10, 98])] ⟨Ckind.rewrite, "old.txt", "new.txt"⟩) =
        (rustLines (newDiffString [("new.txt", [97, 10, 98])]
            ⟨Ckind.rewrite, "old.txt", "new.txt"⟩).data).map DLine.add ∧
      locationMarker ⟨Ckind.rewrite, "old.txt", "new.txt"⟩ =
        "--- old.txt\n+++ new.txt\n" := by
  have h := rewrite_old_side_lookup [("old.txt", [97])] [("new.txt", [97, 10, 98])]
    ⟨Ckind.rewrite, "old.txt", "new.txt"⟩ rfl (by decide) (by decide)
  refine ⟨h.1, h.2.1, ?_⟩
  rw [h.2.2]
  decide
